import Mathlib

/-!
# Verification of the emoji-mosaic pipeline (src/script.js)

Shallow embedding of the parts of `script.js` the specification talks
about: the palette-identifier decoder `filenameToEmoji`, the match
dispatcher `matchEmojisInWorker` together with the worker-readiness
handlers installed by `initWorker`, and the composer `renderFromResults`.

JavaScript strings are modelled as lists of natural-number code points
(`JStr`); the inputs of interest are ASCII identifiers, where this agrees
with the UTF-16 view.  Fallible JavaScript computations (a thrown
exception) are modelled with `Option`/`Except`.
-/

/-- A JavaScript string, as its sequence of code points. -/
abbrev JStr := List Nat

/-- Build a `JStr` from a Lean string literal. -/
def jstr (s : String) : JStr := s.toList.map Char.toNat

/-- `String.prototype.toLowerCase`, character-wise, on the ASCII range
(`A`–`Z` map to `a`–`z`; everything else in our identifier alphabet is
case-less and fixed). -/
def jsLowerChar (c : Nat) : Nat := if 65 ≤ c ∧ c ≤ 90 then c + 32 else c

/-- `String.prototype.split(sep)` for a one-character separator:
`"".split(sep) = [""]`, and separators at either end produce empty
segments, exactly as in JavaScript. -/
def jsSplit (sep : Nat) : JStr → List JStr
  | [] => [[]]
  | c :: rest =>
    if c = sep then [] :: jsSplit sep rest
    else
      match jsSplit sep rest with
      | [] => [[c]]
      | g :: gs => (c :: g) :: gs

/-- `Array.prototype.pop()` applied to a split result: the last segment
(split never returns an empty array). -/
def jsLast : List JStr → JStr
  | [] => []
  | [g] => g
  | _ :: g :: gs => jsLast (g :: gs)

/-- Does `s` start with `p`?  (The test behind `replace(/^emoji_u/, '')`.) -/
def hasFront : JStr → JStr → Bool
  | [], _ => true
  | _ :: _, [] => false
  | p :: ps, s :: ss => p = s && hasFront ps ss

/-- `replace(/^pat/, '')`: remove `p` from the front of `s` when present. -/
def stripFront (p s : JStr) : JStr := if hasFront p s then s.drop p.length else s

/-- Does `s` end with `p`?  (The test behind `replace(/\.svg$/, '')`.) -/
def hasBack (p s : JStr) : Bool := hasFront p.reverse s.reverse

/-- `replace(/pat$/, '')`: remove `p` from the back of `s` when present. -/
def stripBack (p s : JStr) : JStr :=
  if hasBack p s then s.take (s.length - p.length) else s

/-- The ASCII whitespace `parseInt` skips. -/
def isJsSpace (c : Nat) : Bool :=
  c = 32 || c = 9 || c = 10 || c = 11 || c = 12 || c = 13

/-- Value of one hexadecimal digit (`0-9`, `a-f`, `A-F`). -/
def hexDigitVal (c : Nat) : Option Nat :=
  if 48 ≤ c ∧ c ≤ 57 then some (c - 48)
  else if 97 ≤ c ∧ c ≤ 102 then some (c - 87)
  else if 65 ≤ c ∧ c ≤ 70 then some (c - 55)
  else none

def isHexDigit (c : Nat) : Bool := (hexDigitVal c).isSome

/-- Accumulated value of a hexadecimal digit string. -/
def hexNum (ds : JStr) : Nat := ds.foldl (fun a c => 16 * a + (hexDigitVal c).getD 0) 0

/-- `parseInt` stage 1: skip leading whitespace. -/
def parseIntSkipSpace (s : JStr) : JStr := s.dropWhile isJsSpace

/-- `parseInt` stage 2: consume one optional `-` or `+`. -/
def parseIntAfterSign (s1 : JStr) : JStr :=
  if s1.headD 0 = 45 ∨ s1.headD 0 = 43 then s1.tail else s1

/-- `parseInt` stage 3 (radix 16): consume one optional `0x`/`0X`. -/
def parseIntAfterHexMark (s2 : JStr) : JStr :=
  if s2.headD 0 = 48 ∧ (s2.tail.headD 0 = 120 ∨ s2.tail.headD 0 = 88)
  then s2.tail.tail else s2

/-- `parseInt(s, 16)`: skip leading whitespace, optional sign, optional
`0x`/`0X`, then the longest run of hexadecimal digits; `none` is `NaN`
(no digits at all). -/
def parseIntHex (s : JStr) : Option Int :=
  let s1 := parseIntSkipSpace s
  let ds := (parseIntAfterHexMark (parseIntAfterSign s1)).takeWhile isHexDigit
  if ds.isEmpty then none
  else if s1.headD 0 = 45 then some (-(hexNum ds : Int)) else some (hexNum ds : Int)

/-- `String.fromCodePoint(...args)`: throws (`none`) if any argument is
`NaN` or outside `[0, 0x10FFFF]`; otherwise the string of those code
points. -/
def jsFromCodePoint : List (Option Int) → Option JStr
  | [] => some []
  | none :: _ => none
  | some n :: rest =>
    if 0 ≤ n ∧ n ≤ 1114111 then (jsFromCodePoint rest).map (fun l => n.toNat :: l)
    else none

/-- `filenameToEmoji` from src/script.js: lowercase, take the final path
segment, strip the `emoji_u` front and the `.svg` back, split on `_`,
parse each group as a hexadecimal code point, and build the character
sequence.  `none` models the `RangeError` thrown by
`String.fromCodePoint` on an unparseable group. -/
def filenameToEmoji (name : JStr) : Option JStr :=
  let hexes :=
    jsSplit 95
      (stripBack (jstr ".svg")
        (stripFront (jstr "emoji_u")
          (jsLast (jsSplit 47 (name.map jsLowerChar)))))
  jsFromCodePoint (hexes.map parseIntHex)

/-- A lowercase hexadecimal digit (`0-9`, `a-f`), the alphabet of a
well-formed identifier's hex groups. -/
def isLowerHexDigit (c : Nat) : Bool :=
  decide (48 ≤ c ∧ c ≤ 57) || decide (97 ≤ c ∧ c ≤ 102)

/-- Join hex groups with the `_` delimiter. -/
def joinSep : List JStr → JStr
  | [] => []
  | [g] => g
  | g :: g2 :: gs => g ++ 95 :: joinSep (g2 :: gs)

/-- A well-formed identifier body: at least one hex group, each nonempty,
lowercase-hexadecimal, and denoting a code point in Unicode range. -/
def wellFormedGroups (gs : List JStr) : Prop :=
  gs ≠ [] ∧ ∀ g ∈ gs, g ≠ [] ∧ (∀ c ∈ g, isLowerHexDigit c = true) ∧ hexNum g ≤ 1114111

instance (gs : List JStr) : Decidable (wellFormedGroups gs) := by
  rw [wellFormedGroups]
  infer_instance

/-- A well-formed palette identifier
`<prefix><hexGroup>(<delimiter><hexGroup>)*<extension>` with the concrete
prefix `emoji_u`, delimiter `_` and extension `.svg` used by the
palette. -/
def encodeIdent (gs : List JStr) : JStr :=
  jstr "emoji_u" ++ joinSep gs ++ jstr ".svg"

/-! ## Match dispatcher (`matchEmojisInWorker`, src/script.js lines 287–329)

The dispatcher treats tile colors opaquely; a color is a numeric channel
vector. -/

/-- A tile's representative color (three 0–255 channels). -/
abbrev Color := Nat × Nat × Nat

/-- A palette identifier (an emoji asset file name). -/
abbrev Ident := JStr

/-- A thrown JavaScript error, by its message. -/
abbrev JsErr := JStr

/-- Modelled from the spec: the MatchIndex is an external nearest-neighbor
capability, a pure function from a color to the identifier of the closest
palette entry (its "contents" are that function). -/
def MatchIndex := Color → Ident

/-- Modelled from the spec: `queryBatch` maps each color of the batch to
its match, same length and order as the input. -/
def queryBatch (idx : MatchIndex) (colors : List Color) : List Ident :=
  colors.map idx

/-- The dispatcher's channel state: the `workerReady` flag and whether
`mosaicWorker` is non-null. -/
structure DispatchState where
  workerReady : Bool
  workerExists : Bool
deriving DecidableEq

/-- The guard of `matchEmojisInWorker`: the worker path is taken unless
`!workerReady || !mosaicWorker`. -/
def usesWorker (s : DispatchState) : Bool := s.workerReady && s.workerExists

/-- The worker's correlated reply to one `MATCH_EMOJIS` request. -/
inductive WorkerReply where
  | matchComplete (results : List Ident)
  | errorMsg (error : JsErr)
deriving DecidableEq

/-- A message posted to the worker. -/
inductive OutMsg where
  | initWasm
  | matchEmojis (colors : List Color)
deriving DecidableEq

instance {α β : Type} [DecidableEq α] [DecidableEq β] : DecidableEq (Except α β) :=
  fun x y =>
    match x, y with
    | .ok a, .ok b => decidable_of_iff (a = b) (by simp)
    | .error a, .error b => decidable_of_iff (a = b) (by simp)
    | .ok _, .error _ => isFalse (by simp)
    | .error _, .ok _ => isFalse (by simp)

/-- `matchEmojisInWorker`: settle one `matchBatch` call.  `localMatch`
models `runMatchingAndGetResults` (the local WASM matcher, which may
throw); `reply` is the worker's response to this request when the worker
path is taken.  `Except.ok` is `resolve`, `Except.error` is `reject`. -/
def matchEmojisInWorker (localMatch : List Color → Except JsErr (List Ident))
    (s : DispatchState) (colors : List Color) (reply : WorkerReply) :
    Except JsErr (List Ident) :=
  if usesWorker s then
    match reply with
    | .matchComplete rs => .ok rs
    | .errorMsg _ => localMatch colors
  else localMatch colors

/-- The messages `matchEmojisInWorker` posts to the worker for one call:
one `MATCH_EMOJIS` request on the worker path, nothing on the fallback
path. -/
def sentMessages (s : DispatchState) (colors : List Color) : List OutMsg :=
  if usesWorker s then [.matchEmojis colors] else []

/-- Modelled from the spec: mosaic-worker.js is not under src/; per the
background-channel protocol it answers a `MATCH_EMOJIS` request by running
`queryBatch` over its own copy of the MatchIndex. -/
def workerReplyFor (workerIdx : MatchIndex) (colors : List Color) : WorkerReply :=
  .matchComplete (queryBatch workerIdx colors)

/-- Modelled from the spec: `runMatchingAndGetResults` (the foreground
WASM matcher, not under src/) runs `queryBatch` over the local copy of the
MatchIndex; a corrupt or unloaded local index would throw, which the
dispatcher theorems treat by quantifying over an arbitrary `localMatch`. -/
def runMatchingAndGetResults (localIdx : MatchIndex) (colors : List Color) :
    Except JsErr (List Ident) :=
  .ok (queryBatch localIdx colors)

/-! ## Worker readiness handlers (`initWorker`, src/script.js lines 256–285)

`initWorker` installs a persistent `onmessage` handler that sets
`workerReady := true` exactly on a `WASM_READY` message, and an `onerror`
handler that sets `workerReady := false`.  We model the sequence of events
a worker instance delivers and fold the handlers over it. -/

/-- One event delivered by the worker channel: a message (tagged with its
`type` field) or an `onerror` firing. -/
inductive WEvent where
  | message (msgType : JStr)
  | errorEvent
deriving DecidableEq

/-- The effect of one event on the `workerReady` flag, as installed by
`initWorker`. -/
def stepReady (b : Bool) : WEvent → Bool
  | .message t => if t = jstr "WASM_READY" then true else b
  | .errorEvent => false

/-- The `workerReady` flag after a sequence of events (it starts `false`:
`let workerReady = false`). -/
def runReady (es : List WEvent) : Bool := es.foldl stepReady false

/-- Is this event the worker's `WASM_READY` acknowledgment? -/
def isReadySignal (e : WEvent) : Bool :=
  match e with
  | .message t => t = jstr "WASM_READY"
  | .errorEvent => false

/-- How many `WASM_READY` acknowledgments a trace carries. -/
def countReady (es : List WEvent) : Nat := es.countP isReadySignal

/-! ## Composer (`renderFromResults`, src/script.js lines 94–156) -/

/-- The fixed backing-resolution multiplier (`const scaleOutput = 4`). -/
def scaleOutput : Nat := 4

/-- `canvas.width = cols * tileSize * scaleOutput`. -/
def canvasWidth (cols tileSize : Nat) : Nat := cols * tileSize * scaleOutput

/-- `canvas.height = rows * tileSize * scaleOutput`. -/
def canvasHeight (rows tileSize : Nat) : Nat := rows * tileSize * scaleOutput

/-- `canvas.style.width = (cols * tileSize) + "px"`. -/
def styleWidth (cols tileSize : Nat) : Nat := cols * tileSize

/-- `canvas.style.height = (rows * tileSize) + "px"`. -/
def styleHeight (rows tileSize : Nat) : Nat := rows * tileSize

/-- `const offset = (tileSize - (tileSize * scale)) / 2`. -/
def glyphOffset (tileSize : Nat) (scale : ℚ) : ℚ :=
  ((tileSize : ℚ) - (tileSize : ℚ) * scale) / 2

/-- The font size set by `ctx.font`, in logical pixels. -/
def fontSize (tileSize : Nat) (scale : ℚ) : ℚ := (tileSize : ℚ) * scale

/-- `ctx.scale(scaleOutput, scaleOutput)`: a logical coordinate maps to
this device-pixel coordinate. -/
def devicePos (p : ℚ × ℚ) : ℚ × ℚ :=
  ((scaleOutput : ℚ) * p.1, (scaleOutput : ℚ) * p.2)

/-- The placeholder glyph `"⬜"` (U+2B1C). -/
def whiteSquare : JStr := jstr "⬜"

/-- `results[index] || "⬜"`: an out-of-range index (`undefined`) or an
empty string both fall back to the placeholder. -/
def glyphFor (rs : List JStr) (i : Nat) : JStr :=
  if rs.getD i [] = [] then whiteSquare else rs.getD i []

/-- The double loop of `renderFromResults` (`y` outer over rows, `x` inner
over cols, `index` running row-major): the cell visited as `(y, x)`. -/
def rowMajor {α : Type} (cols rows : Nat) (g : Nat → Nat → α) : List α :=
  (List.range rows).flatMap fun y => (List.range cols).map fun x => g y x

/-- The sequence of `ctx.fillText(emoji, x*tileSize + offset,
y*tileSize + offset)` calls issued by `renderFromResults`, in order:
glyph and logical position. -/
def drawCalls (rs : List JStr) (cols rows tileSize : Nat) (scale : ℚ) :
    List (JStr × ℚ × ℚ) :=
  rowMajor cols rows fun y x =>
    (glyphFor rs (y * cols + x),
     (x : ℚ) * (tileSize : ℚ) + glyphOffset tileSize scale,
     (y : ℚ) * (tileSize : ℚ) + glyphOffset tileSize scale)

/-- Step 6 of the upload handler: `results.map(filenameToEmoji)`.  A
decode failure throws out of `map`, so the whole step fails (`none`). -/
def mapDecode : List JStr → Option (List JStr)
  | [] => some []
  | s :: rest =>
    match filenameToEmoji s with
    | none => none
    | some g => (mapDecode rest).map (fun l => g :: l)

/-- The glyph grid the pipeline renders from a raw MatchResult: decode
every identifier (step 6), then run the composer's glyph selection over
the row-major grid; `none` when the decode step threw. -/
def pipelineGlyphs (matchResult : List JStr) (cols rows : Nat) :
    Option (List JStr) :=
  (mapDecode matchResult).map fun rs => rowMajor cols rows fun y x => glyphFor rs (y * cols + x)

/-! ## Dispatcher theorems -/

/-- C1: when the worker path is taken and the worker replies with an
`ERROR` response, `matchEmojisInWorker` settles exactly as the local
fallback on the same batch does: it resolves with the local result, and
rejects only when the local computation itself throws. -/
theorem c1_worker_error_falls_back_locally
    (localMatch : List Color → Except JsErr (List Ident))
    (s : DispatchState) (colors : List Color) (e : JsErr)
    (h : usesWorker s = true) :
    matchEmojisInWorker localMatch s colors (.errorMsg e) = localMatch colors := by
  simp [matchEmojisInWorker, h]

theorem c1_worker_error_falls_back_locally_witness :
    matchEmojisInWorker (runMatchingAndGetResults fun _ => jstr "emoji_u1f600.svg")
        ⟨true, true⟩ [(0, 0, 0)] (.errorMsg (jstr "wasm trap")) =
      .ok [jstr "emoji_u1f600.svg"] := by
  rw [c1_worker_error_falls_back_locally _ ⟨true, true⟩ _ _ (by decide)]
  decide

/-- C2: with the same MatchIndex contents on both sides, the worker path
(reply computed by the worker's `queryBatch`) and the forced local
fallback path resolve with the same MatchResult — both are
`queryBatch` of the batch. -/
theorem c2_worker_and_local_paths_agree
    (workerIdx localIdx : MatchIndex) (colors : List Color)
    (s sFallback : DispatchState)
    (hs : usesWorker s = true) (hf : usesWorker sFallback = false)
    (hidx : workerIdx = localIdx) :
    matchEmojisInWorker (runMatchingAndGetResults localIdx) s colors
        (workerReplyFor workerIdx colors) =
      matchEmojisInWorker (runMatchingAndGetResults localIdx) sFallback colors
        (workerReplyFor workerIdx colors) ∧
    matchEmojisInWorker (runMatchingAndGetResults localIdx) s colors
        (workerReplyFor workerIdx colors) =
      .ok (queryBatch localIdx colors) := by
  subst hidx
  simp [matchEmojisInWorker, workerReplyFor, runMatchingAndGetResults, hs, hf]

theorem c2_worker_and_local_paths_agree_witness :
    matchEmojisInWorker (runMatchingAndGetResults fun c => if c.1 ≥ 128 then jstr "emoji_u2b1c.svg" else jstr "emoji_u2b1b.svg")
        ⟨true, true⟩ [(200, 3, 4), (5, 6, 7)]
        (workerReplyFor (fun c => if c.1 ≥ 128 then jstr "emoji_u2b1c.svg" else jstr "emoji_u2b1b.svg") [(200, 3, 4), (5, 6, 7)]) =
      matchEmojisInWorker (runMatchingAndGetResults fun c => if c.1 ≥ 128 then jstr "emoji_u2b1c.svg" else jstr "emoji_u2b1b.svg")
        ⟨false, true⟩ [(200, 3, 4), (5, 6, 7)]
        (workerReplyFor (fun c => if c.1 ≥ 128 then jstr "emoji_u2b1c.svg" else jstr "emoji_u2b1b.svg") [(200, 3, 4), (5, 6, 7)]) :=
  (c2_worker_and_local_paths_agree _ _ _ ⟨true, true⟩ ⟨false, true⟩ rfl rfl rfl).1

/-- C4: when the channel is in any state other than Ready (`workerReady`
false or no worker object), `matchEmojisInWorker` settles with the local
fallback on the batch — independently of any channel reply — and posts no
message to the channel. -/
theorem c4_not_ready_runs_local_immediately
    (localMatch : List Color → Except JsErr (List Ident))
    (s : DispatchState) (colors : List Color) (reply : WorkerReply)
    (h : usesWorker s = false) :
    matchEmojisInWorker localMatch s colors reply = localMatch colors ∧
    sentMessages s colors = [] := by
  simp [matchEmojisInWorker, sentMessages, h]

theorem c4_not_ready_runs_local_immediately_witness :
    matchEmojisInWorker (runMatchingAndGetResults fun _ => jstr "emoji_u1f600.svg")
        ⟨false, true⟩ [(9, 9, 9)] (.matchComplete [jstr "emoji_u2b1c.svg"]) =
      .ok [jstr "emoji_u1f600.svg"] ∧
    sentMessages ⟨false, true⟩ [(9, 9, 9)] = [] := by
  have h := c4_not_ready_runs_local_immediately
    (runMatchingAndGetResults fun _ => jstr "emoji_u1f600.svg")
    ⟨false, true⟩ [(9, 9, 9)] (.matchComplete [jstr "emoji_u2b1c.svg"]) (by decide)
  exact ⟨by rw [h.1]; decide, h.2⟩

/-- C3 fails on the code: there is no empty-batch short-circuit in
`matchEmojisInWorker`.  When the channel is Ready, the empty ColorBatch
is posted to the worker like any other batch, contradicting "sends no
message to the background channel … even when the channel is Ready". -/
theorem c3_counterexample_empty_batch_is_posted_when_ready :
    sentMessages ⟨true, true⟩ [] = [.matchEmojis []] ∧
    sentMessages ⟨true, true⟩ [] ≠ [] := by
  decide

/-- C3 amended: an empty ColorBatch always resolves with an empty
MatchResult, and no channel message is sent only when the channel is not
Ready; when it is Ready, the empty batch is sent over the channel like
any other request. -/
theorem c3_amended_empty_batch
    (idx : MatchIndex) (s : DispatchState) :
    matchEmojisInWorker (runMatchingAndGetResults idx) s [] (workerReplyFor idx []) =
      .ok [] ∧
    (usesWorker s = false → sentMessages s [] = []) ∧
    (usesWorker s = true → sentMessages s [] = [.matchEmojis []]) := by
  refine ⟨?_, fun h => by simp [sentMessages, h], fun h => by simp [sentMessages, h]⟩
  by_cases h : usesWorker s = true <;>
    simp [matchEmojisInWorker, workerReplyFor, runMatchingAndGetResults, queryBatch, h]

theorem c3_amended_empty_batch_witness :
    matchEmojisInWorker (runMatchingAndGetResults fun _ => jstr "emoji_u1f600.svg")
        ⟨true, true⟩ [] (workerReplyFor (fun _ => jstr "emoji_u1f600.svg") []) =
      .ok [] ∧
    sentMessages ⟨true, true⟩ [] = [.matchEmojis []] :=
  ⟨(c3_amended_empty_batch (fun _ => jstr "emoji_u1f600.svg") ⟨true, true⟩).1,
   (c3_amended_empty_batch (fun _ => jstr "emoji_u1f600.svg") ⟨true, true⟩).2.2 rfl⟩

/-! ## Canvas size theorem -/

/-- C9: the composed canvas's backing pixel size is
`cols*tileSize*scaleOutput × rows*tileSize*scaleOutput` while its logical
CSS size is `cols*tileSize × rows*tileSize`, tracked separately, the
backing size being exactly `scaleOutput` times the logical size; at
`tileSize = 8`, `cols = 4`, `rows = 3` the backing size is `128 × 96`. -/
theorem c9_canvas_sizes (cols rows tileSize : Nat) :
    canvasWidth cols tileSize = styleWidth cols tileSize * scaleOutput ∧
    canvasHeight rows tileSize = styleHeight rows tileSize * scaleOutput ∧
    canvasWidth cols tileSize = cols * tileSize * scaleOutput ∧
    canvasHeight rows tileSize = rows * tileSize * scaleOutput ∧
    canvasWidth 4 8 = 128 ∧ canvasHeight 3 8 = 96 ∧
    styleWidth 4 8 = 32 ∧ styleHeight 3 8 = 24 := by
  refine ⟨?_, ?_, rfl, rfl, rfl, rfl, rfl, rfl⟩ <;>
    simp [canvasWidth, canvasHeight, styleWidth, styleHeight]

/-! ## Readiness state-machine theorems (C5) -/

/-- A trace with no `WASM_READY` acknowledgment never raises the flag. -/
theorem runReady_false_of_no_signal (es : List WEvent)
    (h : ∀ e ∈ es, isReadySignal e = false) : es.foldl stepReady false = false := by
  induction es with
  | nil => rfl
  | cons e rest ih =>
    have he := h e (by simp)
    have hstep : stepReady false e = false := by
      cases e with
      | message t =>
        simp [isReadySignal] at he
        simp [stepReady, he]
      | errorEvent => rfl
    rw [List.foldl_cons, hstep]
    exact ih fun x hx => h x (by simp [hx])

/-- `countReady es = 0` says exactly that no event of `es` is the
`WASM_READY` acknowledgment. -/
theorem countReady_eq_zero_iff (es : List WEvent) :
    countReady es = 0 ↔ ∀ e ∈ es, isReadySignal e = false := by
  simp [countReady, List.countP_eq_zero]

/-- A raised flag implies the trace carried a `WASM_READY` signal. -/
theorem countReady_pos_of_runReady (es : List WEvent)
    (h : runReady es = true) : 1 ≤ countReady es := by
  by_contra hc
  have h0 : countReady es = 0 := by omega
  rw [runReady, runReady_false_of_no_signal es
    ((countReady_eq_zero_iff es).mp h0)] at h
  exact absurd h (by simp)

/-- C5: once an `onerror` event has taken the flag down from Ready, no
later events of the same worker instance return it to Ready, because the
`WASM_READY` acknowledgment — the only event `onmessage` reacts to — is
posted at most once per instance (given `countReady ≤ 1` over the whole
trace).  Quantifying over every continuation `q` covers every later
point of the trace. -/
theorem c5_unavailable_is_terminal (p q : List WEvent)
    (honce : countReady (p ++ WEvent.errorEvent :: q) ≤ 1)
    (hready : runReady p = true) :
    runReady (p ++ WEvent.errorEvent :: q) = false := by
  have hsplit : countReady (p ++ WEvent.errorEvent :: q) =
      countReady p + countReady q := by
    simp [countReady, List.countP_append, List.countP_cons, isReadySignal]
  have hp := countReady_pos_of_runReady p hready
  have hq : countReady q = 0 := by omega
  have : runReady (p ++ WEvent.errorEvent :: q) = q.foldl stepReady false := by
    simp [runReady, List.foldl_append, stepReady]
  rw [this]
  exact runReady_false_of_no_signal q ((countReady_eq_zero_iff q).mp hq)

theorem c5_unavailable_is_terminal_witness :
    runReady ([WEvent.message (jstr "WASM_READY")] ++
      WEvent.errorEvent :: [WEvent.message (jstr "MATCH_COMPLETE")]) = false :=
  c5_unavailable_is_terminal [WEvent.message (jstr "WASM_READY")]
    [WEvent.message (jstr "MATCH_COMPLETE")] (by decide) (by decide)

/-! ## Composer geometry theorems (C8) -/

/-- The composer's double loop visits `rows * cols` cells. -/
theorem rowMajor_length {α : Type} (cols rows : Nat) (g : Nat → Nat → α) :
    (rowMajor cols rows g).length = rows * cols := by
  induction rows with
  | zero => simp [rowMajor]
  | succ r ih =>
    rw [rowMajor, List.range_succ, List.flatMap_append] at *
    simp only [List.length_append, ih]
    simp [Nat.succ_mul]

/-- Peeling the last row off the double loop. -/
theorem rowMajor_succ {α : Type} (cols rows : Nat) (g : Nat → Nat → α) :
    rowMajor cols (rows + 1) g =
      rowMajor cols rows g ++ (List.range cols).map (g rows) := by
  rw [rowMajor, List.range_succ, List.flatMap_append]
  simp [rowMajor]

/-- The cell the double loop visits at running index `i` is
`(y, x) = (i / cols, i % cols)` — the row-major linearization. -/
theorem rowMajor_getElem? {α : Type} (cols rows : Nat) (g : Nat → Nat → α)
    (i : Nat) (h : i < rows * cols) :
    (rowMajor cols rows g)[i]? = some (g (i / cols) (i % cols)) := by
  induction rows with
  | zero => omega
  | succ r ih =>
    have hsm : (r + 1) * cols = r * cols + cols := by ring
    rw [rowMajor_succ]
    by_cases hi : i < r * cols
    · rw [List.getElem?_append_left (by rw [rowMajor_length]; exact hi)]
      exact ih hi
    · have hcols : 0 < cols := by omega
      obtain ⟨j, hj, hij⟩ : ∃ j, j < cols ∧ i = j + r * cols :=
        ⟨i - r * cols, by omega, by omega⟩
      subst hij
      have hlen : (rowMajor cols r g).length ≤ j + r * cols := by
        rw [rowMajor_length]; omega
      rw [List.getElem?_append_right hlen, rowMajor_length]
      have h1 : j + r * cols - r * cols = j := by omega
      have h2 : (j + r * cols) / cols = r := by
        rw [Nat.add_mul_div_right _ _ hcols, Nat.div_eq_of_lt hj, Nat.zero_add]
      have h3 : (j + r * cols) % cols = j := by
        rw [Nat.add_mul_mod_self_right]
        exact Nat.mod_eq_of_lt hj
      rw [h1, h2, h3, List.getElem?_map, List.getElem?_range hj]
      rfl

/-- C8: the `i`-th `fillText` call of the composer places the glyph for
entry `i` at logical position `(x*tileSize + offset, y*tileSize + offset)`
with `x = i % cols`, `y = i / cols` and
`offset = (tileSize - tileSize*glyphScale)/2` on both axes; the font size
is `tileSize*glyphScale`; `glyphScale = 1` gives zero offset; and
`ctx.scale` maps the pre-offset tile origin `(x*tileSize, y*tileSize)` to
device pixels `(x*tileSize*scaleOutput, y*tileSize*scaleOutput)`. -/
theorem c8_glyph_placement (rs : List JStr) (cols rows tileSize : Nat)
    (scale : ℚ) (i : Nat) (h : i < rows * cols) :
    (drawCalls rs cols rows tileSize scale)[i]? =
      some (glyphFor rs i,
        ((i % cols : Nat) : ℚ) * ((tileSize : Nat) : ℚ) + glyphOffset tileSize scale,
        ((i / cols : Nat) : ℚ) * ((tileSize : Nat) : ℚ) + glyphOffset tileSize scale) ∧
    glyphOffset tileSize 1 = 0 ∧
    fontSize tileSize scale = ((tileSize : Nat) : ℚ) * scale ∧
    devicePos (((i % cols : Nat) : ℚ) * ((tileSize : Nat) : ℚ),
        ((i / cols : Nat) : ℚ) * ((tileSize : Nat) : ℚ)) =
      (((i % cols : Nat) : ℚ) * ((tileSize : Nat) : ℚ) * ((scaleOutput : Nat) : ℚ),
       ((i / cols : Nat) : ℚ) * ((tileSize : Nat) : ℚ) * ((scaleOutput : Nat) : ℚ)) := by
  refine ⟨?_, ?_, rfl, ?_⟩
  · rw [drawCalls, rowMajor_getElem? cols rows _ i h, Nat.div_add_mod' i cols]
  · simp [glyphOffset]
  · simp only [devicePos, Prod.mk.injEq]
    exact ⟨by ring, by ring⟩

theorem c8_glyph_placement_witness :
    (drawCalls [] 4 3 8 1)[5]? =
      some (whiteSquare, ((5 % 4 : Nat) : ℚ) * ((8 : Nat) : ℚ) + glyphOffset 8 1,
        ((5 / 4 : Nat) : ℚ) * ((8 : Nat) : ℚ) + glyphOffset 8 1) ∧
    glyphOffset 8 1 = 0 ∧
    devicePos (((5 % 4 : Nat) : ℚ) * ((8 : Nat) : ℚ),
        ((5 / 4 : Nat) : ℚ) * ((8 : Nat) : ℚ)) = (32, 32) := by
  have h := c8_glyph_placement [] 4 3 8 1 5 (by decide)
  refine ⟨?_, h.2.1, ?_⟩
  · rw [h.1]
    rfl
  · rw [h.2.2.2]
    norm_num [scaleOutput]

/-! ## Placeholder-substitution theorems (C7) -/

/-- The decode step of the pipeline fails exactly when some entry of the
MatchResult fails to decode (the exception from `String.fromCodePoint`
propagates out of `results.map(filenameToEmoji)`). -/
theorem mapDecode_eq_none_iff (mr : List JStr) :
    mapDecode mr = none ↔ ∃ s, s ∈ mr ∧ filenameToEmoji s = none := by
  induction mr with
  | nil => simp [mapDecode]
  | cons s rest ih =>
    constructor
    · intro h
      rw [mapDecode] at h
      cases hs : filenameToEmoji s with
      | none => exact ⟨s, by simp, hs⟩
      | some g =>
        rw [hs] at h
        cases hr : mapDecode rest with
        | none =>
          obtain ⟨t, ht, hd⟩ := ih.mp hr
          exact ⟨t, by simp [ht], hd⟩
        | some l => rw [hr] at h; simp at h
    · rintro ⟨t, ht, hd⟩
      rw [mapDecode]
      rcases List.mem_cons.mp ht with heq | hmem
      · subst heq; rw [hd]
      · cases hs : filenameToEmoji s with
        | none => rfl
        | some g => rw [ih.mpr ⟨t, hmem, hd⟩]; rfl

/-- C7 fails on the code: a MatchResult entry whose identifier fails to
decode does not render as a placeholder tile — the decode step
(`results.map(filenameToEmoji)`, run before composition) throws, so the
whole pipeline run aborts and produces no glyph grid at all.  Here the
grid that the claim predicts (the good tile plus a placeholder tile) is
not produced; the pipeline yields `none`. -/
theorem c7_counterexample_decode_failure_aborts_pipeline :
    pipelineGlyphs [jstr "emoji_u1f600.svg", jstr "emoji_uzz.svg"] 2 1 = none ∧
    pipelineGlyphs [jstr "emoji_u1f600.svg", jstr "emoji_uzz.svg"] 2 1 ≠
      some [[0x1F600], whiteSquare] := by
  decide

/-- C7 amended: within the composer, the placeholder is substituted for a
tile whose (already decoded) entry is missing — index out of range — or
empty; any present non-empty entry renders as itself; each tile depends
only on its own entry (so no other tile is affected); but an identifier
that fails to decode aborts the whole pipeline run (the decode step
returns no grid) instead of rendering a placeholder at that tile. -/
theorem c7_amended_placeholder
    (rs rs' : List JStr) (i j : Nat) :
    (rs.getD i [] = [] → glyphFor rs i = whiteSquare) ∧
    (rs.getD i [] ≠ [] → glyphFor rs i = rs.getD i []) ∧
    (rs.getD j [] = rs'.getD j [] → glyphFor rs j = glyphFor rs' j) ∧
    (∀ mr : List JStr, mapDecode mr = none ↔
      ∃ s, s ∈ mr ∧ filenameToEmoji s = none) := by
  refine ⟨fun h => by rw [glyphFor, if_pos h], fun h => by rw [glyphFor, if_neg h],
    fun h => by rw [glyphFor, glyphFor, h], mapDecode_eq_none_iff⟩

theorem c7_amended_placeholder_witness :
    glyphFor [[0x1F600]] 1 = whiteSquare ∧
    glyphFor [[0x1F600]] 0 = [0x1F600] ∧
    (mapDecode [jstr "emoji_uzz.svg"] = none ↔
      ∃ s, s ∈ [jstr "emoji_uzz.svg"] ∧ filenameToEmoji s = none) := by
  have h := c7_amended_placeholder [[0x1F600]] [[0x1F600]] 1 0
  have h0 := c7_amended_placeholder [[0x1F600]] [[0x1F600]] 0 0
  exact ⟨h.1 (by decide), h0.2.1 (by decide), h.2.2.2 [jstr "emoji_uzz.svg"]⟩

/-! ## Decode lemmas: splitting -/

/-- `split` never returns an empty array. -/
theorem jsSplit_ne_nil (sep : Nat) (l : JStr) : jsSplit sep l ≠ [] := by
  cases l with
  | nil => simp [jsSplit]
  | cons c rest =>
    rw [jsSplit]
    split
    · simp
    · split <;> simp

/-- Splitting a separator-free string gives one segment. -/
theorem jsSplit_no_sep (sep : Nat) (l : JStr) (h : ∀ c ∈ l, c ≠ sep) :
    jsSplit sep l = [l] := by
  induction l with
  | nil => rfl
  | cons c rest ih =>
    have hc : c ≠ sep := h c (by simp)
    rw [jsSplit, if_neg hc, ih fun x hx => h x (by simp [hx])]

/-- Splitting past a separator-free first segment. -/
theorem jsSplit_append_sep (sep : Nat) (g rest : JStr) (h : ∀ c ∈ g, c ≠ sep) :
    jsSplit sep (g ++ sep :: rest) = g :: jsSplit sep rest := by
  induction g with
  | nil => rw [List.nil_append, jsSplit, if_pos rfl]
  | cons c gtail ih =>
    have hc : c ≠ sep := h c (by simp)
    rw [List.cons_append, jsSplit, if_neg hc, ih fun x hx => h x (by simp [hx])]

/-- `split` returns one more segment than there are separators. -/
theorem jsSplit_length (sep : Nat) (l : JStr) :
    (jsSplit sep l).length = l.count sep + 1 := by
  induction l with
  | nil => simp [jsSplit]
  | cons c rest ih =>
    rw [jsSplit]
    by_cases h : c = sep
    · rw [if_pos h]
      simp [List.count_cons, h, ih]
    · rw [if_neg h]
      rcases hs : jsSplit sep rest with _ | ⟨g, gs⟩
      · exact absurd hs (jsSplit_ne_nil sep rest)
      · have hlen := ih
        rw [hs] at hlen
        simp only [List.length_cons] at hlen ⊢
        have hcount : (c :: rest).count sep = rest.count sep := by
          simp [List.count_cons, h]
        rw [hcount]
        omega

/-- A string containing the separator splits into at least two segments. -/
theorem jsSplit_two_of_mem (sep : Nat) (l : JStr) (h : sep ∈ l) :
    2 ≤ (jsSplit sep l).length := by
  rw [jsSplit_length]
  have := List.count_pos_iff.mpr h
  omega

theorem jsLast_cons_cons (x g : JStr) (gs : List JStr) :
    jsLast (x :: g :: gs) = jsLast (g :: gs) := rfl

/-- The last segment of a split only depends on what follows the last
separator: prepending `a ++ [sep]` does not change it. -/
theorem jsLast_jsSplit_append (sep : Nat) (a b : JStr) :
    jsLast (jsSplit sep (a ++ sep :: b)) = jsLast (jsSplit sep b) := by
  induction a with
  | nil =>
    rw [List.nil_append, jsSplit, if_pos rfl]
    rcases hs : jsSplit sep b with _ | ⟨g, gs⟩
    · exact absurd hs (jsSplit_ne_nil sep b)
    · rfl
  | cons c atail ih =>
    rw [List.cons_append, jsSplit]
    by_cases hc : c = sep
    · rw [if_pos hc]
      rcases hs : jsSplit sep (atail ++ sep :: b) with _ | ⟨g, gs⟩
      · exact absurd hs (jsSplit_ne_nil _ _)
      · rw [hs] at ih
        rw [jsLast_cons_cons]
        exact ih
    · rw [if_neg hc]
      rcases hs : jsSplit sep (atail ++ sep :: b) with _ | ⟨g, gs⟩
      · exact absurd hs (jsSplit_ne_nil _ _)
      · have h2 := jsSplit_two_of_mem sep (atail ++ sep :: b) (by simp)
        rw [hs] at h2 ih
        rcases gs with _ | ⟨g2, gs2⟩
        · simp at h2
        · rw [jsLast_cons_cons] at ih
          show jsLast ((c :: g) :: g2 :: gs2) = jsLast (jsSplit sep b)
          rw [jsLast_cons_cons]
          exact ih

/-! ## Decode lemmas: stripping and parsing -/

theorem hasFront_append (p r : JStr) : hasFront p (p ++ r) = true := by
  induction p with
  | nil => rfl
  | cons c ps ih => simp [hasFront, ih]

theorem stripFront_append (p r : JStr) : stripFront p (p ++ r) = r := by
  rw [stripFront, if_pos (hasFront_append p r), List.drop_left]

theorem stripBack_append (p m : JStr) : stripBack p (m ++ p) = m := by
  have hb : hasBack p (m ++ p) = true := by
    rw [hasBack, List.reverse_append]
    exact hasFront_append _ _
  rw [stripBack, if_pos hb, List.length_append, Nat.add_sub_cancel, List.take_left]

theorem takeWhile_all {p : Nat → Bool} (l : JStr) (h : ∀ c ∈ l, p c = true) :
    l.takeWhile p = l := by
  induction l with
  | nil => rfl
  | cons c t ih =>
    rw [List.takeWhile_cons, h c (by simp), if_pos rfl, ih fun x hx => h x (by simp [hx])]

/-- The three digit ranges `isHexDigit` accepts. -/
theorem isHexDigit_cases (c : Nat) (h : isHexDigit c = true) :
    (48 ≤ c ∧ c ≤ 57) ∨ (97 ≤ c ∧ c ≤ 102) ∨ (65 ≤ c ∧ c ≤ 70) := by
  rw [isHexDigit, hexDigitVal] at h
  split_ifs at h with h1 h2 h3
  · exact Or.inl h1
  · exact Or.inr (Or.inl h2)
  · exact Or.inr (Or.inr h3)
  · simp at h

theorem isHexDigit_of_lower (c : Nat) (h : isLowerHexDigit c = true) :
    isHexDigit c = true := by
  rw [isLowerHexDigit] at h
  rw [isHexDigit, hexDigitVal]
  simp only [Bool.or_eq_true, decide_eq_true_eq] at h
  rcases h with h | h
  · rw [if_pos h]; rfl
  · rw [if_neg (by omega), if_pos h]; rfl

/-- `parseInt(g, 16)` on a nonempty all-hex-digit string is its value. -/
theorem parseIntHex_all_hex (g : JStr) (hne : g ≠ [])
    (h : ∀ c ∈ g, isHexDigit c = true) :
    parseIntHex g = some (hexNum g : Int) := by
  rcases g with _ | ⟨c, t⟩
  · exact absurd rfl hne
  have hc := isHexDigit_cases c (h c (by simp))
  have hskip : parseIntSkipSpace (c :: t) = c :: t := by
    rw [parseIntSkipSpace, List.dropWhile_cons, if_neg]
    simp only [isJsSpace, Bool.or_eq_true, decide_eq_true_eq]
    omega
  have hsign : parseIntAfterSign (c :: t) = c :: t := by
    rw [parseIntAfterSign, if_neg]
    simp only [List.headD_cons]
    omega
  have hmark : parseIntAfterHexMark (c :: t) = c :: t := by
    rw [parseIntAfterHexMark, if_neg]
    simp only [List.headD_cons, List.tail_cons]
    rintro ⟨h48, hx⟩
    rcases t with _ | ⟨c2, t2⟩
    · simp at hx
    · simp only [List.headD_cons] at hx
      have hc2 := isHexDigit_cases c2 (h c2 (by simp))
      omega
  have htake : (c :: t).takeWhile isHexDigit = c :: t := takeWhile_all _ h
  simp only [parseIntHex, hskip, hsign, hmark, htake]
  rw [if_neg (by simp), if_neg (by simp only [List.headD_cons]; omega)]

/-- `String.fromCodePoint` on in-range values returns exactly them. -/
theorem jsFromCodePoint_values (vals : List Nat) (h : ∀ v ∈ vals, v ≤ 1114111) :
    jsFromCodePoint (vals.map fun v : Nat => some (v : Int)) = some vals := by
  induction vals with
  | nil => rfl
  | cons v t ih =>
    have hv := h v (by simp)
    rw [List.map_cons, jsFromCodePoint, if_pos ⟨Int.natCast_nonneg v, by exact_mod_cast hv⟩,
      ih fun x hx => h x (by simp [hx])]
    simp [Int.toNat_natCast]

/-! ## Decode lemmas: encoding round trip -/

theorem jsLast_singleton (g : JStr) : jsLast [g] = g := rfl

theorem map_id_of_fixed (f : Nat → Nat) (l : JStr) (h : ∀ c ∈ l, f c = c) :
    l.map f = l := by
  induction l with
  | nil => rfl
  | cons c t ih => rw [List.map_cons, h c (by simp), ih fun x hx => h x (by simp [hx])]

/-- Every character of a joined body is a delimiter or a group character. -/
theorem mem_joinSep (gs : List JStr) (c : Nat) (h : c ∈ joinSep gs) :
    c = 95 ∨ ∃ g ∈ gs, c ∈ g := by
  induction gs with
  | nil => simp [joinSep] at h
  | cons g rest ih =>
    rcases rest with _ | ⟨g2, rt⟩
    · simp only [joinSep] at h
      exact Or.inr ⟨g, by simp, h⟩
    · simp only [joinSep] at h
      rcases List.mem_append.mp h with h1 | h2
      · exact Or.inr ⟨g, by simp, h1⟩
      · rcases List.mem_cons.mp h2 with h95 | h3
        · exact Or.inl h95
        · rcases ih h3 with h95 | ⟨g3, hg3, hc3⟩
          · exact Or.inl h95
          · exact Or.inr ⟨g3, by simp [hg3], hc3⟩

/-- Splitting on the delimiter recovers the joined groups when no group
contains the delimiter. -/
theorem jsSplit_joinSep (gs : List JStr) (hne : gs ≠ [])
    (h : ∀ g ∈ gs, ∀ c ∈ g, c ≠ 95) : jsSplit 95 (joinSep gs) = gs := by
  induction gs with
  | nil => exact absurd rfl hne
  | cons g rest ih =>
    rcases rest with _ | ⟨g2, rt⟩
    · simp only [joinSep]
      exact jsSplit_no_sep 95 g (h g (by simp))
    · simp only [joinSep]
      rw [jsSplit_append_sep 95 g _ (h g (by simp)),
        ih (by simp) fun g' hg' => h g' (by simp [hg'])]

/-- C6: a well-formed palette identifier
`emoji_u<hexGroup>(_<hexGroup>)*.svg` decodes to exactly the character
sequence of its groups' code points. -/
theorem c6_decode_wellformed (gs : List JStr) (h : wellFormedGroups gs) :
    filenameToEmoji (encodeIdent gs) = some (gs.map hexNum) := by
  obtain ⟨hne, hall⟩ := h
  have hgd : ∀ g ∈ gs, ∀ c ∈ g, isLowerHexDigit c = true := fun g hg => (hall g hg).2.1
  have hgr : ∀ g ∈ gs, ∀ c ∈ g, (48 ≤ c ∧ c ≤ 57) ∨ (97 ≤ c ∧ c ≤ 102) := by
    intro g hg c hc
    have := hgd g hg c hc
    rw [isLowerHexDigit] at this
    simpa using this
  have hlower : (encodeIdent gs).map jsLowerChar = encodeIdent gs := by
    apply map_id_of_fixed
    intro c hcmem
    rw [encodeIdent] at hcmem
    rcases List.mem_append.mp hcmem with h12 | h4
    · rcases List.mem_append.mp h12 with h1 | h3
      · have hfix : ∀ c ∈ jstr "emoji_u", jsLowerChar c = c := by decide
        exact hfix c h1
      · rcases mem_joinSep gs c h3 with h95 | ⟨g, hg, hcg⟩
        · subst h95; decide
        · have := hgr g hg c hcg
          rw [jsLowerChar, if_neg (by omega)]
    · have hfix : ∀ c ∈ jstr ".svg", jsLowerChar c = c := by decide
      exact hfix c h4
  have h47 : ∀ c ∈ encodeIdent gs, c ≠ 47 := by
    intro c hcmem
    rw [encodeIdent] at hcmem
    rcases List.mem_append.mp hcmem with h12 | h4
    · rcases List.mem_append.mp h12 with h1 | h3
      · have hfix : ∀ c ∈ jstr "emoji_u", c ≠ 47 := by decide
        exact hfix c h1
      · rcases mem_joinSep gs c h3 with h95 | ⟨g, hg, hcg⟩
        · omega
        · have := hgr g hg c hcg
          omega
    · have hfix : ∀ c ∈ jstr ".svg", c ≠ 47 := by decide
      exact hfix c h4
  have hnot95 : ∀ g ∈ gs, ∀ c ∈ g, c ≠ 95 := by
    intro g hg c hc
    have := hgr g hg c hc
    omega
  simp only [filenameToEmoji]
  rw [hlower, jsSplit_no_sep 47 _ h47, jsLast_singleton, encodeIdent,
    List.append_assoc, stripFront_append, stripBack_append,
    jsSplit_joinSep gs hne hnot95]
  have hmap : gs.map parseIntHex = (gs.map hexNum).map fun v : Nat => some (v : Int) := by
    rw [List.map_map]
    apply List.map_congr_left
    intro g hg
    exact parseIntHex_all_hex g (hall g hg).1
      fun c hc => isHexDigit_of_lower c (hgd g hg c hc)
  rw [hmap, jsFromCodePoint_values]
  intro v hv
  obtain ⟨g, hg, rfl⟩ := List.mem_map.mp hv
  exact (hall g hg).2.2

theorem c6_decode_wellformed_witness :
    filenameToEmoji (encodeIdent [[49, 102, 54, 48, 48]]) = some [0x1F600] ∧
    encodeIdent [[49, 102, 54, 48, 48]] = jstr "emoji_u1f600.svg" :=
  ⟨c6_decode_wellformed [[49, 102, 54, 48, 48]] (by decide), by decide⟩

/-! ## Decode invariance theorems (C10) -/

theorem jsLowerChar_idem (c : Nat) : jsLowerChar (jsLowerChar c) = jsLowerChar c := by
  simp only [jsLowerChar]
  split_ifs <;> omega

/-- C10: the decoder depends only on the lowercased final path segment —
prepending any directory prefix (with a `/`, code point 47) leaves the
decode unchanged, and decoding a pre-lowercased identifier (e.g. one
whose uppercase hex digits were lowercased) gives the same result as
decoding the original. -/
theorem c10_decode_lowered_last_segment (p s : JStr) :
    filenameToEmoji (p ++ 47 :: s) = filenameToEmoji s ∧
    filenameToEmoji (s.map jsLowerChar) = filenameToEmoji s := by
  constructor
  · simp only [filenameToEmoji]
    have hsplit : (p ++ 47 :: s).map jsLowerChar =
        p.map jsLowerChar ++ 47 :: s.map jsLowerChar := by
      rw [List.map_append, List.map_cons]
      norm_num [jsLowerChar]
    rw [hsplit, jsLast_jsSplit_append]
  · simp only [filenameToEmoji]
    have hcong : s.map (jsLowerChar ∘ jsLowerChar) = s.map jsLowerChar :=
      List.map_congr_left fun a _ => jsLowerChar_idem a
    rw [List.map_map, hcong]
